import Mathlib

/-!
# Verification of the expense-tracker core (`src/main.js`)

A shallow embedding of the expense-tracking pipeline of `src/main.js`:
the expense record model, the mutation operations (`addExpense`,
`updateExpense`, `deleteExpense`, `getExpenseById`), the query pipeline
(`filterExpenses`, `sortExpenses`, `calculateCategoryStats`) and the
import/export round trip (`exportData`, `importData`).

Modelling conventions:
* JS numbers that may be `NaN` are modelled as `Option Int`; `none` is `NaN`
  (all amounts in the app are integers produced by `parseInt`).
* A JS object field that may be absent (`undefined`) is an `Option`; `none`
  is the absent field.
* Fallible evaluation (a thrown `TypeError`) is `Except Unit`.
* JS `toLowerCase` is modelled on ASCII letters (`Char.toLower`); string
  comparison is code-point lexicographic, as in JS for BMP strings.
-/

namespace ExpenseTracker

/-- JS `parseInt(s, 10)`: skip leading spaces, optional sign, then the longest
digit prefix; `none` models the `NaN` result when no digit is found. -/
def parseDigits (cs : List Char) : Option Nat :=
  let ds := cs.takeWhile Char.isDigit
  if ds.isEmpty then none
  else some (ds.foldl (fun n c => n * 10 + (c.toNat - 48)) 0)

/-- Signed part of `parseInt` after whitespace stripping. -/
def parseSigned : List Char → Option Int
  | '-' :: t => (parseDigits t).map (fun n => -(n : Int))
  | '+' :: t => (parseDigits t).map (fun n => (n : Int))
  | t => (parseDigits t).map (fun n => (n : Int))

/-- JS `parseInt(s, 10)` on a string; `none` is `NaN`. -/
def parseIntStr (s : String) : Option Int :=
  parseSigned (s.toList.dropWhile (fun c => c = ' '))

/-- JS `parseInt(x, 10)` on a possibly-absent value: `parseInt(undefined, 10)`
is `NaN` (`none`). -/
def parseIntJS : Option String → Option Int
  | none => none
  | some s => parseIntStr s

/-- One stored expense record, as persisted by `main.js`
(`{id, date, category, amount, memo, createdAt, updatedAt?}`).
`amount` is `none` when the JS value is `NaN`; `memo`/`updatedAt` are `none`
when the field is absent. -/
structure Expense where
  id : String
  date : String
  category : String
  amount : Option Int
  memo : Option String
  createdAt : Int
  updatedAt : Option Int
deriving Repr, DecidableEq

/-- The filter specification consumed by `filterExpenses`; `none` models the
`null`/absent JS value for each optional predicate. -/
structure Filters where
  dateFrom : Option String
  dateTo : Option String
  category : Option String
  amountMin : Option Int
  amountMax : Option Int
  searchMemo : Option String
deriving Repr, DecidableEq

/-- JS truthiness of an optional string: `null`, `undefined` and `""` are
falsy. -/
def strActive : Option String → Bool
  | none => false
  | some s => !(s == "")

/-- Guard `filters.dateFrom && expense.date < filters.dateFrom` of
`filterExpenses` (`true` = the record is rejected). -/
def dateFromFail (f : Filters) (e : Expense) : Bool :=
  match f.dateFrom with
  | none => false
  | some s => !(s == "") && decide (e.date < s)

/-- Guard `filters.dateTo && expense.date > filters.dateTo`. -/
def dateToFail (f : Filters) (e : Expense) : Bool :=
  match f.dateTo with
  | none => false
  | some s => !(s == "") && decide (s < e.date)

/-- Guard `filters.category && expense.category !== filters.category`. -/
def categoryFail (f : Filters) (e : Expense) : Bool :=
  match f.category with
  | none => false
  | some c => !(c == "") && !(e.category == c)

/-- Guard `filters.amountMin !== null && expense.amount < filters.amountMin`.
A `NaN` amount (`none`) compares false in JS, so it is never rejected here. -/
def amountMinFail (f : Filters) (e : Expense) : Bool :=
  match f.amountMin, e.amount with
  | none, _ => false
  | some _, none => false
  | some m, some a => decide (a < m)

/-- Guard `filters.amountMax !== null && expense.amount > filters.amountMax`. -/
def amountMaxFail (f : Filters) (e : Expense) : Bool :=
  match f.amountMax, e.amount with
  | none, _ => false
  | some _, none => false
  | some m, some a => decide (m < a)

/-- Characters of a string, lowercased as by JS `toLowerCase` (ASCII model). -/
def lowerChars (s : String) : List Char :=
  s.toList.map Char.toLower

/-- `startsWithChars needle hay`: `needle` is a prefix of `hay`. -/
def startsWithChars : List Char → List Char → Bool
  | [], _ => true
  | _ :: _, [] => false
  | a :: as, b :: bs => a == b && startsWithChars as bs

/-- `containsChars needle hay`: `needle` occurs contiguously in `hay`
(JS `String.prototype.includes`). -/
def containsChars (needle : List Char) : List Char → Bool
  | [] => needle.isEmpty
  | b :: bs => startsWithChars needle (b :: bs) || containsChars needle bs

/-- JS `hay.toLowerCase().includes(needle.toLowerCase())`. -/
def jsIncludes (hay needle : String) : Bool :=
  containsChars (lowerChars needle) (lowerChars hay)

/-- The memo guard
`filters.searchMemo && !expense.memo.toLowerCase().includes(filters.searchMemo.toLowerCase())`
of `filterExpenses`. When `searchMemo` is truthy and the record's `memo` field
is absent, `expense.memo.toLowerCase()` throws a `TypeError`, modelled as
`Except.error ()`. `Except.ok true` means the record is rejected. -/
def memoCheck (f : Filters) (e : Expense) : Except Unit Bool :=
  match f.searchMemo with
  | none => .ok false
  | some s =>
    if s == "" then .ok false
    else
      match e.memo with
      | none => .error ()
      | some m => .ok (!(jsIncludes m s))

/-- The filter callback of `filterExpenses` (`main.js:199-223`): the guards in
source order, short-circuiting with `return false`; the memo guard may throw. -/
def passes (f : Filters) (e : Expense) : Except Unit Bool :=
  if dateFromFail f e then .ok false
  else if dateToFail f e then .ok false
  else if categoryFail f e then .ok false
  else if amountMinFail f e then .ok false
  else if amountMaxFail f e then .ok false
  else
    match memoCheck f e with
    | .error u => .error u
    | .ok rejected => .ok (!rejected)

/-- `filterExpenses(expenses, filters)` (`main.js:198-224`): JS `Array.filter`
evaluated left to right; a `TypeError` thrown by the callback aborts the whole
call. -/
def filterExpenses : List Expense → Filters → Except Unit (List Expense)
  | [], _ => .ok []
  | e :: rest, f =>
    match passes f e with
    | .error u => .error u
    | .ok b =>
      match filterExpenses rest f with
      | .error u => .error u
      | .ok r => .ok (if b then e :: r else r)

/-- Modelled from the spec: the memo predicate's rejection flag with an absent
memo treated as the empty string ("case-insensitive substring match against
the memo field (absent memo treated as empty string)"). -/
def memoFailSpec (f : Filters) (e : Expense) : Bool :=
  match f.searchMemo with
  | none => false
  | some s => !(s == "") && !(jsIncludes (e.memo.getD "") s)

/-- Modelled from the spec: a record passes the filter specification iff it
passes every active predicate (logical AND), with an absent memo treated as
the empty string. Stated from the spec's words, for comparison with
`filterExpenses`. -/
def passesSpec (f : Filters) (e : Expense) : Bool :=
  !dateFromFail f e && !dateToFail f e && !categoryFail f e &&
    !amountMinFail f e && !amountMaxFail f e && !memoFailSpec f e

/-- No predicate of the filter specification is active (every field is
`null`/absent/empty, i.e. falsy for the string fields and `null` for the
numeric bounds). -/
def noFilterActive (f : Filters) : Bool :=
  !strActive f.dateFrom && !strActive f.dateTo && !strActive f.category &&
    !f.amountMin.isSome && !f.amountMax.isSome && !strActive f.searchMemo

/-- Input to `addExpense` as built by `handleFormSubmit`: `date`, `category`
and `amount` are form-field strings; `memo` is optional (`undefined` allowed,
defaulted by `addExpense`). -/
structure AddInput where
  date : String
  category : String
  amount : String
  memo : Option String
deriving Repr, DecidableEq

/-- Input to `updateExpense`: a partial record; `none` fields are absent from
the JS object and are not spread over the existing record. -/
structure UpdateInput where
  date : Option String
  category : Option String
  amount : Option String
  memo : Option String
deriving Repr, DecidableEq

/-- `addExpense(expenseData)` (`main.js:129-142`) acting on the stored list:
appends the freshly built record and reports success. The generated id and
`Date.now()` are parameters (`newId`, `now`). -/
def addExpense (expenses : List Expense) (input : AddInput) (newId : String)
    (now : Int) : Bool × List Expense :=
  (true, expenses ++
    [{ id := newId
       date := input.date
       category := input.category
       amount := parseIntStr input.amount
       memo := some (input.memo.getD "")
       createdAt := now
       updatedAt := none }])

/-- The record spread `{...expenses[index], ...updatedData, amount: parseInt(updatedData.amount, 10), updatedAt: Date.now()}`
of `updateExpense` (`main.js:156-161`): present input fields override, `amount`
is always re-parsed, `updatedAt` is stamped. -/
def mergeExpense (e : Expense) (u : UpdateInput) (now : Int) : Expense :=
  { id := e.id
    date := u.date.getD e.date
    category := u.category.getD e.category
    amount := parseIntJS u.amount
    memo := match u.memo with | none => e.memo | some m => some m
    createdAt := e.createdAt
    updatedAt := some now }

/-- `findIndex` + in-place replacement of `updateExpense`: `none` when no
record has the id, otherwise the list with the first match merged. -/
def updateFirst : List Expense → String → UpdateInput → Int → Option (List Expense)
  | [], _, _, _ => none
  | e :: rest, id, u, now =>
    if e.id == id then some (mergeExpense e u now :: rest)
    else (updateFirst rest id u now).map (fun r => e :: r)

/-- `updateExpense(id, updatedData)` (`main.js:150-164`) acting on the stored
list: `(false, unchanged)` when the id is not found (the early return skips
`saveExpenses`), otherwise `(true, rewritten list)`. -/
def updateExpense (expenses : List Expense) (id : String) (u : UpdateInput)
    (now : Int) : Bool × List Expense :=
  match updateFirst expenses id u now with
  | none => (false, expenses)
  | some l => (true, l)

/-- `deleteExpense(id)` (`main.js:171-176`): keeps the records whose id
differs and always reports success. -/
def deleteExpense (expenses : List Expense) (id : String) : Bool × List Expense :=
  (true, expenses.filter (fun e => !(e.id == id)))

/-- `getExpenseById(id)` (`main.js:183-186`): first linear-scan match, `none`
for the JS `null` absent marker. -/
def getExpenseById (expenses : List Expense) (id : String) : Option Expense :=
  expenses.find? (fun e => e.id == id)

/-- Split a character list at `-` separators (the `YYYY-MM-DD` layout). -/
def splitDash : List Char → List (List Char)
  | [] => [[]]
  | c :: rest =>
    if c = '-' then [] :: splitDash rest
    else
      match splitDash rest with
      | [] => [[c]]
      | g :: gs => (c :: g) :: gs

/-- Numeric value of an all-digit group, `none` otherwise. -/
def digitsVal (cs : List Char) : Option Nat :=
  if !cs.isEmpty && cs.all Char.isDigit then
    some (cs.foldl (fun n c => n * 10 + (c.toNat - 48)) 0)
  else none

/-- Numeric key of `new Date(s)` for an ISO `YYYY-MM-DD` string, up to a
strictly increasing transformation of the millisecond timestamp (only the sign
of comparator differences matters to `sort`). A malformed date gives `NaN` in
JS, for which the comparator is inconsistent and the sort order unspecified;
the model uses the key `0` there. -/
def dateKey (s : String) : Nat :=
  match (splitDash s.toList).map digitsVal with
  | [some y, some m, some d] => y * 10000 + m * 100 + d
  | _ => 0

/-- Comparator `(a, b) => new Date(b.date) - new Date(a.date)` as the merge
relation "`a` may precede `b`" (comparator result `≤ 0`). -/
def leDateDesc (a b : Expense) : Bool :=
  decide (dateKey b.date ≤ dateKey a.date)

/-- Comparator `(a, b) => new Date(a.date) - new Date(b.date)`. -/
def leDateAsc (a b : Expense) : Bool :=
  decide (dateKey a.date ≤ dateKey b.date)

/-- Comparator `(a, b) => b.amount - a.amount`. A `NaN` amount makes the JS
comparator inconsistent (order unspecified); the model totalizes `NaN` as 0. -/
def leAmountDesc (a b : Expense) : Bool :=
  decide (b.amount.getD 0 ≤ a.amount.getD 0)

/-- Comparator `(a, b) => a.amount - b.amount`. -/
def leAmountAsc (a b : Expense) : Bool :=
  decide (a.amount.getD 0 ≤ b.amount.getD 0)

/-- Comparator `(a, b) => a.category.localeCompare(b.category, 'ja')`; the
`ja` collation is modelled by code-point order on the category strings. -/
def leCategoryAsc (a b : Expense) : Bool :=
  decide (a.category ≤ b.category)

/-- The `switch (sortBy)` of `sortExpenses` (`main.js:234-247`): the merge
relation for each recognized key, `none` for the default branch. -/
def sortLE (sortBy : String) : Option (Expense → Expense → Bool) :=
  if sortBy = "date-desc" then some leDateDesc
  else if sortBy = "date-asc" then some leDateAsc
  else if sortBy = "amount-desc" then some leAmountDesc
  else if sortBy = "amount-asc" then some leAmountAsc
  else if sortBy = "category-asc" then some leCategoryAsc
  else none

/-- `sortExpenses(expenses, sortBy)` (`main.js:232-248`): copies the list
(`[...expenses]`) and sorts the copy with the selected comparator; JS
`Array.sort` is stable, modelled by `List.mergeSort`. The default branch
returns the unsorted copy. -/
def sortExpenses (expenses : List Expense) (sortBy : String) : List Expense :=
  match sortLE sortBy with
  | some le => expenses.mergeSort le
  | none => expenses

/-- JS addition where `none` is `NaN` (absorbing). -/
def jsAdd : Option Int → Option Int → Option Int
  | some a, some b => some (a + b)
  | _, _ => none

/-- JS falsiness of a number: `0` and `NaN` are falsy. -/
def jsFalsyNum : Option Int → Bool
  | none => true
  | some n => n == 0

/-- One step of the `forEach` of `calculateCategoryStats` (`main.js:339-345`):
`if (!categoryMap[c]) categoryMap[c] = 0; categoryMap[c] += amount`. A new
category is appended (JS string-keyed insertion order); a falsy stored value
is reset to `0` before adding. -/
def bump (m : List (String × Option Int)) (c : String) (a : Option Int) :
    List (String × Option Int) :=
  match m with
  | [] => [(c, jsAdd (some 0) a)]
  | (c', v) :: rest =>
    if c' = c then (c', jsAdd (if jsFalsyNum v then some 0 else v) a) :: rest
    else (c', v) :: bump rest c a

/-- The `categoryMap` after the `forEach`, as an insertion-ordered
association list (`Object.entries` order for string keys). -/
def buildCategoryMap (l : List Expense) : List (String × Option Int) :=
  l.foldl (fun m e => bump m e.category e.amount) []

/-- The running `total` of `calculateCategoryStats`. -/
def grandTotal (l : List Expense) : Option Int :=
  l.foldl (fun t e => jsAdd t e.amount) (some 0)

/-- JS `Math.round`: half-up (towards `+∞`). -/
def jsRound (q : ℚ) : Int :=
  ⌊q + 1 / 2⌋

/-- `total > 0 ? Math.round((amount / total) * 100) : 0` (`main.js:352`),
with JS `NaN` as `none`: a `NaN` total fails `total > 0` giving `0`; a `NaN`
amount over a positive total gives `NaN`. -/
def statPercentage (total : Option Int) (a : Option Int) : Option Int :=
  match total with
  | none => some 0
  | some t =>
    if 0 < t then
      match a with
      | none => none
      | some av => some (jsRound ((av : ℚ) / (t : ℚ) * 100))
    else some 0

/-- One entry of the category breakdown `{category, amount, percentage}`. -/
structure CatStat where
  category : String
  amount : Option Int
  percentage : Option Int
deriving Repr, DecidableEq

/-- Comparator `(a, b) => b.amount - a.amount` on breakdown entries
(`main.js:354`), totalized at `NaN` like `leAmountDesc`. -/
def leStat (a b : CatStat) : Bool :=
  decide (b.amount.getD 0 ≤ a.amount.getD 0)

/-- The `stats` array of `calculateCategoryStats` before sorting
(`Object.entries(categoryMap).map(...)`, `main.js:348-353`). -/
def statsUnsorted (l : List Expense) : List CatStat :=
  (buildCategoryMap l).map
    (fun p => { category := p.1, amount := p.2,
                percentage := statPercentage (grandTotal l) p.2 : CatStat })

/-- `calculateCategoryStats(expenses)` (`main.js:334-357`): per-category sums
in first-occurrence order, mapped to `{category, amount, percentage}` and
stably sorted by amount descending. -/
def calculateCategoryStats (l : List Expense) : List CatStat :=
  (statsUnsorted l).mergeSort leStat

/-- The settings object `{currency, dateFormat, defaultCategory}`. -/
structure Settings where
  currency : String
  dateFormat : String
  defaultCategory : String
deriving Repr, DecidableEq

/-- The persisted state: the three independently-keyed documents. -/
structure Store where
  expenses : List Expense
  categories : List String
  settings : Settings
deriving Repr, DecidableEq

/-- The export document `{expenses, categories, settings, exportDate}`
(`main.js:699-704`). The three sections are optional on the import side
(`if (data.expenses) ...`); `exportData` always produces all three. -/
structure ExportDoc where
  expenses : Option (List Expense)
  categories : Option (List String)
  settings : Option Settings
  exportDate : String
deriving Repr, DecidableEq

/-- `exportData()` (`main.js:694-716`): bundles the loaded expense list,
category list and settings with an export timestamp. The JSON serialization
to the downloaded file is the identity on this document (faithful for records
whose numbers are not `NaN` and whose absent fields are simply omitted). -/
def exportData (s : Store) (ts : String) : ExportDoc :=
  { expenses := some s.expenses
    categories := some s.categories
    settings := some s.settings
    exportDate := ts }

/-- `importData(file)` (`main.js:722-752`): after JSON parsing and user
confirmation, each truthy section wholly replaces the stored one. Without
confirmation nothing is written. A JS array or object section is truthy
whenever present (even `[]`), so `none` is the only skipped case. -/
def importData (doc : ExportDoc) (confirmed : Bool) (s : Store) : Store :=
  if !confirmed then s
  else
    { expenses := match doc.expenses with | none => s.expenses | some l => l
      categories := match doc.categories with | none => s.categories | some l => l
      settings := match doc.settings with | none => s.settings | some v => v }

/-! ## Filtering (claims C1, C3, C10) -/

/-- The memo guard agrees with the spec's predicate whenever the record's
memo field is present (or the search text is inactive). -/
theorem memoCheck_eq_spec (f : Filters) (e : Expense)
    (h : strActive f.searchMemo = true → e.memo.isSome) :
    memoCheck f e = .ok (memoFailSpec f e) := by
  unfold memoCheck memoFailSpec
  cases hs : f.searchMemo with
  | none => rfl
  | some s =>
    by_cases hempty : s == ""
    · simp [hempty]
    · have hsome : e.memo.isSome := by
        apply h
        simp [strActive, hs, hempty]
      cases hm : e.memo with
      | none => rw [hm] at hsome; cases hsome
      | some m => simp [hempty, Bool.eq_false_iff.mpr, hm]

/-- The filter callback agrees with the spec's conjunction whenever the
record's memo field is present (or the search text is inactive). -/
theorem passes_eq_spec (f : Filters) (e : Expense)
    (h : strActive f.searchMemo = true → e.memo.isSome) :
    passes f e = .ok (passesSpec f e) := by
  unfold passes passesSpec
  rw [memoCheck_eq_spec f e h]
  cases h1 : dateFromFail f e <;> cases h2 : dateToFail f e <;>
    cases h3 : categoryFail f e <;> cases h4 : amountMinFail f e <;>
    cases h5 : amountMaxFail f e <;> simp

/-- `filterExpenses` computes the spec conjunction filter when every record
that the memo guard will touch carries a memo field. -/
theorem filterExpenses_eq_filter (f : Filters) :
    ∀ l : List Expense, (strActive f.searchMemo = true → ∀ e ∈ l, e.memo.isSome) →
      filterExpenses l f = .ok (l.filter (fun e => passesSpec f e))
  | [], _ => rfl
  | e :: rest, h => by
    have he : strActive f.searchMemo = true → e.memo.isSome :=
      fun hs => h hs e (List.mem_cons_self e rest)
    have hrest := filterExpenses_eq_filter f rest
      (fun hs x hx => h hs x (List.mem_cons_of_mem e hx))
    simp [filterExpenses, passes_eq_spec f e he, hrest, List.filter_cons]

/-- An inactive `dateFrom` never rejects. -/
theorem dateFromFail_inactive (f : Filters) (e : Expense)
    (h : strActive f.dateFrom = false) : dateFromFail f e = false := by
  unfold dateFromFail
  cases hd : f.dateFrom with
  | none => rfl
  | some s => rw [hd] at h; simp [strActive] at h; simp [h]

/-- An inactive `dateTo` never rejects. -/
theorem dateToFail_inactive (f : Filters) (e : Expense)
    (h : strActive f.dateTo = false) : dateToFail f e = false := by
  unfold dateToFail
  cases hd : f.dateTo with
  | none => rfl
  | some s => rw [hd] at h; simp [strActive] at h; simp [h]

/-- An inactive `category` never rejects. -/
theorem categoryFail_inactive (f : Filters) (e : Expense)
    (h : strActive f.category = false) : categoryFail f e = false := by
  unfold categoryFail
  cases hd : f.category with
  | none => rfl
  | some s => rw [hd] at h; simp [strActive] at h; simp [h]

/-- With every predicate absent, the callback accepts every record without
touching the memo. -/
theorem passes_of_noFilterActive (f : Filters) (e : Expense)
    (h : noFilterActive f = true) : passes f e = .ok true := by
  unfold noFilterActive at h
  simp only [Bool.and_eq_true, Bool.not_eq_true'] at h
  obtain ⟨⟨⟨⟨⟨h1, h2⟩, h3⟩, h4⟩, h5⟩, h6⟩ := h
  have e4 : f.amountMin = none := Option.not_isSome_iff_eq_none.mp (by simp [h4])
  have e5 : f.amountMax = none := Option.not_isSome_iff_eq_none.mp (by simp [h5])
  have e6 : memoCheck f e = .ok false := by
    unfold memoCheck
    cases hs : f.searchMemo with
    | none => rfl
    | some s => rw [hs] at h6; simp [strActive] at h6; simp [h6]
  unfold passes
  rw [dateFromFail_inactive f e h1, dateToFail_inactive f e h2,
    categoryFail_inactive f e h3, e6]
  simp [amountMinFail, amountMaxFail, e4, e5]

/-- With every predicate absent, `filterExpenses` returns the input list. -/
theorem filterExpenses_of_noFilterActive (f : Filters)
    (h : noFilterActive f = true) :
    ∀ l : List Expense, filterExpenses l f = .ok l
  | [] => rfl
  | e :: rest => by
    simp [filterExpenses, passes_of_noFilterActive f e h,
      filterExpenses_of_noFilterActive f h rest]

/-- C1 (amended): provided every record carries a memo field whenever the
`searchMemo` predicate is active, `filterExpenses` keeps exactly the records
that satisfy every active predicate among `dateFrom`, `dateTo`, `category`,
`amountMin`, `amountMax` and `searchMemo` (logical AND), and when every
predicate is absent it returns the input list unchanged. -/
theorem filterExpenses_conjunction (l : List Expense) (f : Filters)
    (hmemo : strActive f.searchMemo = true → ∀ e ∈ l, e.memo.isSome) :
    filterExpenses l f = .ok (l.filter (fun e => passesSpec f e)) ∧
      (noFilterActive f = true → filterExpenses l f = .ok l) :=
  ⟨filterExpenses_eq_filter f l hmemo,
    fun h => filterExpenses_of_noFilterActive f h l⟩

/-- Concrete record with an absent memo field (C1 counterexample). -/
def exC1 : Expense :=
  { id := "c1", date := "2024-03-01", category := "食費", amount := some 800,
    memo := none, createdAt := 0, updatedAt := none }

/-- Concrete filter specification with only `searchMemo` active (C1). -/
def fC1 : Filters :=
  { dateFrom := none, dateTo := none, category := none, amountMin := none,
    amountMax := none, searchMemo := some "x" }

/-- C1 counterexample: on a list containing a record with an absent memo and a
filter with `searchMemo` active, `filterExpenses` does not return the records
satisfying every active predicate (it throws instead of producing the
conjunction filter). -/
theorem filterExpenses_conjunction_cex :
    filterExpenses [exC1] fC1 ≠ .ok ([exC1].filter (fun e => passesSpec fC1 e)) := by
  intro h
  rw [show filterExpenses [exC1] fC1 = Except.error () from rfl] at h
  exact Except.noConfusion h

/-- C1 witness. -/
theorem filterExpenses_conjunction_witness :
    filterExpenses
        [{ id := "w", date := "2024-01-05", category := "食費", amount := some 10,
           memo := some "coffee", createdAt := 0, updatedAt := none }]
        { dateFrom := none, dateTo := none, category := none, amountMin := none,
          amountMax := none, searchMemo := some "fee" } =
      .ok (List.filter
        (fun e => passesSpec
          { dateFrom := none, dateTo := none, category := none, amountMin := none,
            amountMax := none, searchMemo := some "fee" } e)
        [{ id := "w", date := "2024-01-05", category := "食費", amount := some 10,
           memo := some "coffee", createdAt := 0, updatedAt := none }]) :=
  (filterExpenses_conjunction _ _ (by decide)).1

/-- Concrete record with an absent memo field (C3). -/
def exC3 : Expense :=
  { id := "c3", date := "2024-04-02", category := "娯楽", amount := some 1200,
    memo := none, createdAt := 0, updatedAt := none }

/-- Concrete filter specification with `searchMemo` active (C3). -/
def fC3 : Filters :=
  { dateFrom := none, dateTo := none, category := none, amountMin := none,
    amountMax := none, searchMemo := some "a" }

/-- C3: on a record whose memo field is absent, an active `searchMemo`
predicate makes `filterExpenses` throw (`expense.memo.toLowerCase()` on
`undefined`), instead of treating the absent memo as the empty string. -/
theorem filterExpenses_absent_memo_raises :
    filterExpenses [exC3] fC3 = Except.error () := rfl

/-- C10: whenever `filterExpenses` returns a list, that list is a subsequence
of the input: kept records appear once each, in their input order. -/
theorem filterExpenses_sublist (l : List Expense) (f : Filters)
    (r : List Expense) (h : filterExpenses l f = Except.ok r) : r.Sublist l := by
  induction l generalizing r with
  | nil =>
    simp only [filterExpenses, Except.ok.injEq] at h
    subst h
    exact List.Sublist.refl []
  | cons e rest ih =>
    simp only [filterExpenses] at h
    cases hp : passes f e with
    | error u => rw [hp] at h; exact Except.noConfusion h
    | ok b =>
      rw [hp] at h
      cases hr : filterExpenses rest f with
      | error u => rw [hr] at h; exact Except.noConfusion h
      | ok rr =>
        rw [hr] at h
        simp only [Except.ok.injEq] at h
        subst h
        cases b with
        | true => simpa using List.Sublist.cons₂ e (ih rr hr)
        | false => simpa using List.Sublist.cons e (ih rr hr)

/-- Concrete records for the C10 witness. -/
def exC10a : Expense :=
  { id := "ca", date := "2024-05-01", category := "日用品", amount := some 30,
    memo := some "", createdAt := 0, updatedAt := none }

/-- Second concrete record for the C10 witness. -/
def exC10b : Expense :=
  { id := "cb", date := "2024-05-02", category := "食費", amount := some 40,
    memo := some "", createdAt := 0, updatedAt := none }

/-- Concrete category filter keeping only `exC10b` (C10 witness). -/
def fC10 : Filters :=
  { dateFrom := none, dateTo := none, category := some "食費", amountMin := none,
    amountMax := none, searchMemo := none }

/-- C10 witness. -/
theorem filterExpenses_sublist_witness : List.Sublist [exC10b] [exC10a, exC10b] :=
  filterExpenses_sublist [exC10a, exC10b] fC10 [exC10b] rfl

/-! ## Mutation operations (claims C2, C4, C6, C7) -/

/-- `findIndex`-and-replace on a list whose prefix has no matching id:
the first match is the distinguished record. -/
theorem updateFirst_append (l₁ l₂ : List Expense) (e : Expense) (u : UpdateInput)
    (now : Int) (hfresh : ∀ x ∈ l₁, x.id ≠ e.id) :
    updateFirst (l₁ ++ e :: l₂) e.id u now = some (l₁ ++ mergeExpense e u now :: l₂) := by
  induction l₁ with
  | nil => simp [updateFirst]
  | cons x xs ih =>
    have hx : (x.id == e.id) = false :=
      beq_eq_false_iff_ne.mpr (hfresh x (List.mem_cons_self x xs))
    simp [updateFirst, hx, ih (fun y hy => hfresh y (List.mem_cons_of_mem x hy))]

/-- C2 (amended): on a stored list containing the target id, `updateExpense`
reports success and rewrites the full list with the merged record; the merged
record keeps the previous `date`, `category` and `memo` when the input omits
them, but `amount` is always re-coerced from the input, so an input that omits
`amount` sets the stored amount to `NaN` (`none`), not its previous value. -/
theorem updateExpense_merge (l₁ l₂ : List Expense) (e : Expense) (u : UpdateInput)
    (now : Int) (hfresh : ∀ x ∈ l₁, x.id ≠ e.id) :
    updateExpense (l₁ ++ e :: l₂) e.id u now = (true, l₁ ++ mergeExpense e u now :: l₂) ∧
      (mergeExpense e u now).date = u.date.getD e.date ∧
      (mergeExpense e u now).category = u.category.getD e.category ∧
      (mergeExpense e u now).memo = (match u.memo with | none => e.memo | some m => some m) ∧
      (mergeExpense e u now).amount = parseIntJS u.amount ∧
      (u.amount = none → (mergeExpense e u now).amount = none) := by
  refine ⟨?_, rfl, rfl, rfl, rfl, ?_⟩
  · unfold updateExpense
    rw [updateFirst_append l₁ l₂ e u now hfresh]
  · intro h
    simp [mergeExpense, h, parseIntJS]

/-- Concrete stored record (C2). -/
def exC2 : Expense :=
  { id := "u1", date := "2024-02-10", category := "交通費", amount := some 500,
    memo := some "bus", createdAt := 0, updatedAt := none }

/-- Concrete update input that omits `amount` (C2). -/
def inC2 : UpdateInput :=
  { date := none, category := none, amount := none, memo := some "train" }

/-- C2 counterexample: updating with an input that omits `amount` does not
keep the previous amount — the stored amount becomes `NaN` (`none`). -/
theorem updateExpense_omit_amount_cex :
    (updateExpense [exC2] "u1" inC2 7).2.map (fun x => x.amount) ≠ [exC2.amount] ∧
      (updateExpense [exC2] "u1" inC2 7).2.map (fun x => x.amount) = [none] ∧
      exC2.amount = some 500 := by
  refine ⟨?_, rfl, rfl⟩
  decide

/-- C2 witness. -/
theorem updateExpense_merge_witness :
    updateExpense [exC2] "u1" inC2 7 = (true, [mergeExpense exC2 inC2 7]) ∧
      (mergeExpense exC2 inC2 7).amount = none :=
  ⟨(updateExpense_merge [] [] exC2 inC2 7 (by decide)).1,
    (updateExpense_merge [] [] exC2 inC2 7 (by decide)).2.2.2.2.2 rfl⟩

/-- C4: `addExpense` followed by `getExpenseById` on the id of the newly
created record returns a record whose `date`, `category`, `amount` and `memo`
equal the input, with `amount` coerced to an integer and `memo` defaulted to
the empty string if omitted (for a fresh id and a valid positive amount). -/
theorem addExpense_then_get (l : List Expense) (input : AddInput) (newId : String)
    (now : Int) (n : Int) (hfresh : ∀ e ∈ l, e.id ≠ newId)
    (hamt : parseIntStr input.amount = some n) (hpos : 0 < n) :
    getExpenseById (addExpense l input newId now).2 newId =
      some { id := newId, date := input.date, category := input.category,
             amount := some n, memo := some (input.memo.getD ""),
             createdAt := now, updatedAt := none } := by
  unfold addExpense getExpenseById
  rw [List.find?_append]
  have h1 : l.find? (fun e => e.id == newId) = none :=
    List.find?_eq_none.mpr (fun x hx => by simp [hfresh x hx])
  rw [h1]
  simp [List.find?, hamt]

/-- Concrete add input (C4 witness). -/
def inC4 : AddInput :=
  { date := "2024-06-01", category := "食費", amount := "1000", memo := none }

/-- C4 witness. -/
theorem addExpense_then_get_witness :
    getExpenseById (addExpense [] inC4 "n1" 11).2 "n1" =
      some { id := "n1", date := "2024-06-01", category := "食費",
             amount := some 1000, memo := some "", createdAt := 11,
             updatedAt := none } :=
  addExpense_then_get [] inC4 "n1" 11 1000 (by decide) (by decide) (by decide)

/-- `findIndex` misses on a list with no matching id. -/
theorem updateFirst_none :
    ∀ (l : List Expense) (id : String) (u : UpdateInput) (now : Int),
      (∀ e ∈ l, e.id ≠ id) → updateFirst l id u now = none
  | [], _, _, _, _ => rfl
  | e :: rest, id, u, now, h => by
    have he : (e.id == id) = false :=
      beq_eq_false_iff_ne.mpr (h e (List.mem_cons_self e rest))
    simp [updateFirst, he,
      updateFirst_none rest id u now (fun x hx => h x (List.mem_cons_of_mem e hx))]

/-- C6: `updateExpense` on an id not present in the stored list reports
failure and leaves the list exactly unchanged (the early return precedes
`saveExpenses`, so no write happens). -/
theorem updateExpense_not_found (l : List Expense) (id : String) (u : UpdateInput)
    (now : Int) (h : ∀ e ∈ l, e.id ≠ id) :
    updateExpense l id u now = (false, l) := by
  unfold updateExpense
  rw [updateFirst_none l id u now h]

/-- C6 witness. -/
theorem updateExpense_not_found_witness :
    updateExpense [exC2] "zz" inC2 3 = (false, [exC2]) :=
  updateExpense_not_found [exC2] "zz" inC2 3 (by decide)

/-- C7: `deleteExpense` removes exactly the records carrying the given id,
reports success unconditionally (even when nothing matched), and a subsequent
`getExpenseById` on that id yields the absent marker. -/
theorem deleteExpense_spec (l : List Expense) (id : String) :
    (deleteExpense l id).1 = true ∧
      (deleteExpense l id).2 = l.filter (fun e => !(e.id == id)) ∧
      getExpenseById (deleteExpense l id).2 id = none := by
  refine ⟨rfl, rfl, ?_⟩
  unfold deleteExpense getExpenseById
  refine List.find?_eq_none.mpr (fun x hx => ?_)
  simp only [List.mem_filter, Bool.not_eq_eq_eq_not, Bool.not_true] at hx
  simp [hx.2]

/-! ## Sorting (claim C5) -/

/-- Every comparator selected by the `switch` of `sortExpenses` is
transitive. -/
theorem sortLE_trans (k : String) (le : Expense → Expense → Bool)
    (h : sortLE k = some le) :
    ∀ a b c, le a b = true → le b c = true → le a c = true := by
  unfold sortLE at h
  split_ifs at h
  all_goals simp only [Option.some.injEq] at h
  all_goals subst h
  all_goals intro a b c h1 h2
  all_goals simp only [leDateDesc, leDateAsc, leAmountDesc, leAmountAsc,
    leCategoryAsc, decide_eq_true_eq] at h1 h2 ⊢
  all_goals first
    | omega
    | exact le_trans h1 h2

/-- Every comparator selected by the `switch` of `sortExpenses` is total. -/
theorem sortLE_total (k : String) (le : Expense → Expense → Bool)
    (h : sortLE k = some le) :
    ∀ a b, (le a b || le b a) = true := by
  unfold sortLE at h
  split_ifs at h
  all_goals simp only [Option.some.injEq] at h
  all_goals subst h
  all_goals intro a b
  all_goals simp only [leDateDesc, leDateAsc, leAmountDesc, leAmountAsc,
    leCategoryAsc, Bool.or_eq_true, decide_eq_true_eq]
  all_goals first
    | omega
    | exact le_total _ _

/-- C5: `sortExpenses` is a pure function of its input (the embedding is on
immutable lists; the source sorts a copy, `[...expenses]`): its output is a
permutation of the input; it is stable — two records that the selected
comparator ties (`le` both ways, i.e. equal keys) keep their relative input
order; and re-sorting a list already sorted by date-desc with the date-desc
key returns the identical sequence. -/
theorem sortExpenses_spec (l : List Expense) (sortBy : String) :
    (sortExpenses l sortBy).Perm l ∧
      (∀ le, sortLE sortBy = some le → ∀ a b : Expense, le a b = true →
        le b a = true → List.Sublist [a, b] l →
        List.Sublist [a, b] (sortExpenses l sortBy)) ∧
      (List.Pairwise (fun a b => leDateDesc a b = true) l →
        sortExpenses l "date-desc" = l) := by
  refine ⟨?_, ?_, ?_⟩
  · unfold sortExpenses
    cases hk : sortLE sortBy with
    | none => exact List.Perm.refl l
    | some le => exact List.mergeSort_perm l le
  · intro le hle a b hab hba hsub
    unfold sortExpenses
    rw [hle]
    exact List.pair_sublist_mergeSort (sortLE_trans sortBy le hle)
      (sortLE_total sortBy le hle) hab hsub
  · intro hsorted
    have hdd : sortLE "date-desc" = some leDateDesc := rfl
    unfold sortExpenses
    rw [hdd]
    exact List.mergeSort_of_sorted hsorted

/-- Concrete record, amount tied with `exW2` (C5 witness). -/
def exW1 : Expense :=
  { id := "w1", date := "2024-07-01", category := "食費", amount := some 300,
    memo := some "", createdAt := 0, updatedAt := none }

/-- Concrete record, amount tied with `exW1` (C5 witness). -/
def exW2 : Expense :=
  { id := "w2", date := "2024-07-02", category := "娯楽", amount := some 300,
    memo := some "", createdAt := 0, updatedAt := none }

/-- Concrete record with the largest amount and latest date (C5 witness). -/
def exW3 : Expense :=
  { id := "w3", date := "2024-07-03", category := "光熱費", amount := some 900,
    memo := some "", createdAt := 0, updatedAt := none }

/-- C5 witness: the amount-tied pair keeps its order under `amount-desc`, and
a date-desc-sorted list is returned identically. -/
theorem sortExpenses_spec_witness :
    List.Sublist [exW1, exW2] (sortExpenses [exW3, exW1, exW2] "amount-desc") ∧
      sortExpenses [exW3, exW2] "date-desc" = [exW3, exW2] :=
  ⟨(sortExpenses_spec [exW3, exW1, exW2] "amount-desc").2.1 leAmountDesc rfl
      exW1 exW2 (by decide) (by decide)
      (List.Sublist.cons exW3 (List.Sublist.refl [exW1, exW2])),
    (sortExpenses_spec [exW3, exW2] "date-desc").2.2 (by decide)⟩

/-! ## Import/export round trip (claim C9) -/

/-- C9: feeding the document produced by `exportData` into `importData` with
user confirmation reproduces the expense list, category list and settings
field-for-field (for states whose amounts are actual integers, i.e. not
`NaN`, so that the JSON serialization of the document is faithful). -/
theorem exportData_importData_roundTrip (s s₂ : Store) (ts : String)
    (hjson : ∀ e ∈ s.expenses, e.amount.isSome) :
    importData (exportData s ts) true s₂ = s := by
  cases s
  simp [exportData, importData]

/-- Concrete store (C9 witness). -/
def storeC9 : Store :=
  { expenses := [exC10a]
    categories := ["食費", "交通費"]
    settings := { currency := "¥", dateFormat := "YYYY-MM-DD", defaultCategory := "その他" } }

/-- Concrete second store overwritten by the import (C9 witness). -/
def storeOther : Store :=
  { expenses := [], categories := [], settings := { currency := "", dateFormat := "", defaultCategory := "" } }

/-- C9 witness. -/
theorem exportData_importData_roundTrip_witness :
    importData (exportData storeC9 "2024-09-01T00:00:00.000Z") true storeOther = storeC9 :=
  exportData_importData_roundTrip storeC9 storeOther "2024-09-01T00:00:00.000Z" (by decide)

/-! ## Category breakdown (claim C8)

The `forEach` of `calculateCategoryStats` is analysed through an integer-level
image of the accumulator: when every amount is an actual integer (no `NaN`),
`bump` coincides with the integer accumulation `intBump`. -/

/-- The integer amount of a record whose amount is not `NaN`. -/
def intAmount (e : Expense) : Int :=
  e.amount.getD 0

/-- Sum of the amounts of the records in a given category. -/
def catSum (l : List Expense) (c : String) : Int :=
  ((l.filter (fun e => e.category == c)).map intAmount).sum

/-- Sum of all amounts (the grand total, at the integer level). -/
def totalInt (l : List Expense) : Int :=
  (l.map intAmount).sum

/-- Integer-level image of `bump`. -/
def intBump : List (String × Int) → String → Int → List (String × Int)
  | [], c, a => [(c, a)]
  | (c', v) :: rest, c, a =>
    if c' = c then (c', v + a) :: rest else (c', v) :: intBump rest c a

/-- Integer-level image of `buildCategoryMap`. -/
def intBuild (l : List Expense) : List (String × Int) :=
  l.foldl (fun m e => intBump m e.category (intAmount e)) []

/-- Tag every accumulator value with `some`. -/
def mapSome (m : List (String × Int)) : List (String × Option Int) :=
  m.map (fun p => (p.1, some p.2))

/-- Keys of the integer accumulator. -/
def keysOf (m : List (String × Int)) : List String :=
  m.map Prod.fst

/-- First value stored under a key. -/
def lookupV (m : List (String × Int)) (c : String) : Option Int :=
  (m.find? (fun p => p.1 == c)).map Prod.snd

/-- Value stored under a key, `0` when the key is absent. -/
def valAt (m : List (String × Int)) (c : String) : Int :=
  (lookupV m c).getD 0

/-- The falsy-reset of the `forEach` body never changes an integer value:
`0` is reset to `0` and any other integer is kept. -/
theorem jsAdd_reset (v a : Int) :
    jsAdd (if jsFalsyNum (some v) then some 0 else some v) (some a) = some (v + a) := by
  by_cases hv : v = 0 <;> simp [jsFalsyNum, jsAdd, hv]

/-- On `NaN`-free data, `bump` is `intBump`. -/
theorem bump_mapSome (m : List (String × Int)) (c : String) (a : Int) :
    bump (mapSome m) c (some a) = mapSome (intBump m c a) := by
  induction m with
  | nil => simp [bump, intBump, mapSome, jsAdd]
  | cons p rest ih =>
    by_cases hc : p.1 = c
    · simp [bump, intBump, mapSome, hc, jsAdd_reset]
    · simp only [mapSome] at ih
      simp [bump, intBump, mapSome, hc, ih]

/-- On `NaN`-free data, the accumulating fold is the integer fold. -/
theorem buildAux_mapSome :
    ∀ (l : List Expense) (m : List (String × Int)),
      (∀ e ∈ l, e.amount = some (intAmount e)) →
      l.foldl (fun m' e => bump m' e.category e.amount) (mapSome m) =
        mapSome (l.foldl (fun m' e => intBump m' e.category (intAmount e)) m)
  | [], _, _ => rfl
  | e :: rest, m, h => by
    have he : e.amount = some (intAmount e) := h e (List.mem_cons_self e rest)
    rw [List.foldl_cons, List.foldl_cons, he, bump_mapSome]
    exact buildAux_mapSome rest (intBump m e.category (intAmount e))
      (fun x hx => h x (List.mem_cons_of_mem e hx))

/-- On `NaN`-free data, the category map is the integer category map. -/
theorem buildCategoryMap_eq (l : List Expense)
    (h : ∀ e ∈ l, e.amount = some (intAmount e)) :
    buildCategoryMap l = mapSome (intBuild l) :=
  buildAux_mapSome l [] h

/-- `totalInt` on a cons cell. -/
theorem totalInt_cons (e : Expense) (rest : List Expense) :
    totalInt (e :: rest) = intAmount e + totalInt rest := by
  simp [totalInt]

/-- On `NaN`-free data, the running total is the integer total. -/
theorem grandTotal_aux :
    ∀ (l : List Expense) (t : Int), (∀ e ∈ l, e.amount = some (intAmount e)) →
      l.foldl (fun acc e => jsAdd acc e.amount) (some t) = some (t + totalInt l)
  | [], t, _ => by simp [totalInt]
  | e :: rest, t, h => by
    have he : e.amount = some (intAmount e) := h e (List.mem_cons_self e rest)
    rw [List.foldl_cons, he]
    show List.foldl _ (jsAdd (some t) (some (intAmount e))) rest = _
    rw [show jsAdd (some t) (some (intAmount e)) = some (t + intAmount e) from rfl,
      grandTotal_aux rest (t + intAmount e)
        (fun x hx => h x (List.mem_cons_of_mem e hx)),
      totalInt_cons]
    congr 1
    omega

/-- On `NaN`-free data, `grandTotal` is `totalInt`. -/
theorem grandTotal_eq (l : List Expense)
    (h : ∀ e ∈ l, e.amount = some (intAmount e)) :
    grandTotal l = some (totalInt l) := by
  have := grandTotal_aux l 0 h
  simpa [grandTotal] using this

/-- Keys after an `intBump`. -/
theorem keysOf_intBump (m : List (String × Int)) (c : String) (a : Int) :
    keysOf (intBump m c a) =
      if c ∈ keysOf m then keysOf m else keysOf m ++ [c] := by
  induction m with
  | nil => simp [intBump, keysOf]
  | cons p rest ih =>
    by_cases hc : p.1 = c
    · simp [intBump, hc, keysOf]
    · have hne : ¬c = p.1 := fun h => hc h.symm
      have h1 : intBump (p :: rest) c a = p :: intBump rest c a := by
        simp [intBump, hc]
      rw [h1,
        show keysOf (p :: intBump rest c a) = p.1 :: keysOf (intBump rest c a) from rfl,
        show keysOf (p :: rest) = p.1 :: keysOf rest from rfl, ih]
      simp only [List.mem_cons, hne, false_or]
      by_cases hm : c ∈ keysOf rest <;> simp [hm]

/-- Key membership after an `intBump`. -/
theorem mem_keys_intBump (m : List (String × Int)) (c a : _) (c' : String) :
    c' ∈ keysOf (intBump m c a) ↔ c' ∈ keysOf m ∨ c' = c := by
  rw [keysOf_intBump]
  by_cases hm : c ∈ keysOf m
  · simp only [hm, if_true]
    constructor
    · exact Or.inl
    · rintro (h | rfl)
      · exact h
      · exact hm
  · simp [hm, List.mem_append]

/-- Lookup at the bumped key. -/
theorem lookupV_intBump_self (m : List (String × Int)) (c : String) (a : Int) :
    lookupV (intBump m c a) c = some (valAt m c + a) := by
  induction m with
  | nil => simp [intBump, lookupV, valAt, List.find?]
  | cons p rest ih =>
    by_cases hc : p.1 = c
    · simp [intBump, hc, lookupV, valAt, List.find?]
    · have hb : (p.1 == c) = false := beq_eq_false_iff_ne.mpr hc
      have h1 : intBump (p :: rest) c a = p :: intBump rest c a := by
        simp [intBump, hc]
      have h2 : lookupV (p :: intBump rest c a) c = lookupV (intBump rest c a) c := by
        simp [lookupV, List.find?, hb]
      have h3 : valAt (p :: rest) c = valAt rest c := by
        simp [valAt, lookupV, List.find?, hb]
      rw [h1, h2, h3, ih]

/-- Lookup at any other key is unchanged by an `intBump`. -/
theorem lookupV_intBump_other (m : List (String × Int)) (c : String) (a : Int)
    (c' : String) (h : c' ≠ c) :
    lookupV (intBump m c a) c' = lookupV m c' := by
  induction m with
  | nil =>
    have hb : (c == c') = false := beq_eq_false_iff_ne.mpr (fun hh => h hh.symm)
    simp [intBump, lookupV, List.find?, hb]
  | cons p rest ih =>
    by_cases hc : p.1 = c
    · have hb : (p.1 == c') = false :=
        beq_eq_false_iff_ne.mpr (fun hh => h (hh.symm.trans hc))
      have hb2 : (c == c') = false := beq_eq_false_iff_ne.mpr (fun hh => h hh.symm)
      simp [intBump, hc, lookupV, List.find?, hb, hb2]
    · cases hb : (p.1 == c') with
      | true => simp [intBump, hc, lookupV, List.find?, hb]
      | false =>
        simp only [intBump, hc, if_false, lookupV, List.find?, hb] at ih ⊢
        exact ih

/-- `intBump` preserves key distinctness. -/
theorem nodup_keys_intBump (m : List (String × Int)) (c : String) (a : Int)
    (h : (keysOf m).Nodup) : (keysOf (intBump m c a)).Nodup := by
  rw [keysOf_intBump]
  by_cases hm : c ∈ keysOf m
  · simpa [hm] using h
  · simp [hm, List.nodup_append, h]

/-- `intBump` adds its amount to the total of the stored values. -/
theorem sum_intBump (m : List (String × Int)) (c : String) (a : Int) :
    ((intBump m c a).map Prod.snd).sum = (m.map Prod.snd).sum + a := by
  induction m with
  | nil => simp [intBump]
  | cons p rest ih =>
    by_cases hc : p.1 = c
    · simp [intBump, hc]
      omega
    · simp [intBump, hc, ih]
      omega

/-- Keys accumulated by the `forEach` fold: the starting keys plus the
categories seen. -/
theorem mem_keys_foldl :
    ∀ (l : List Expense) (m : List (String × Int)) (c : String),
      c ∈ keysOf (l.foldl (fun m' e => intBump m' e.category (intAmount e)) m) ↔
        c ∈ keysOf m ∨ c ∈ l.map (fun e => e.category)
  | [], m, c => by simp
  | e :: rest, m, c => by
    rw [List.foldl_cons, mem_keys_foldl rest _ c, mem_keys_intBump]
    simp only [List.map_cons, List.mem_cons]
    tauto

/-- The `forEach` fold keeps the keys distinct. -/
theorem nodup_keys_foldl :
    ∀ (l : List Expense) (m : List (String × Int)),
      (keysOf m).Nodup →
      (keysOf (l.foldl (fun m' e => intBump m' e.category (intAmount e)) m)).Nodup
  | [], _, h => h
  | e :: rest, m, h => by
    rw [List.foldl_cons]
    exact nodup_keys_foldl rest _ (nodup_keys_intBump m e.category (intAmount e) h)

/-- `catSum` on a cons cell. -/
theorem catSum_cons (e : Expense) (rest : List Expense) (c : String) :
    catSum (e :: rest) c =
      (if e.category = c then intAmount e else 0) + catSum rest c := by
  by_cases hc : e.category = c <;> simp [catSum, List.filter_cons, hc]

/-- Value accumulated under a key by the `forEach` fold: the starting value
plus the category's sum. -/
theorem valAt_foldl :
    ∀ (l : List Expense) (m : List (String × Int)) (c : String),
      valAt (l.foldl (fun m' e => intBump m' e.category (intAmount e)) m) c =
        valAt m c + catSum l c
  | [], m, c => by simp [catSum]
  | e :: rest, m, c => by
    rw [List.foldl_cons, valAt_foldl rest _ c, catSum_cons]
    by_cases hc : e.category = c
    · subst hc
      rw [show valAt (intBump m e.category (intAmount e)) e.category =
            valAt m e.category + intAmount e from by
          simp [valAt, lookupV_intBump_self]]
      simp
      omega
    · rw [show valAt (intBump m e.category (intAmount e)) c = valAt m c from by
          simp [valAt,
            lookupV_intBump_other m e.category (intAmount e) c (fun hh => hc hh.symm)]]
      simp [hc]

/-- On distinct keys, membership determines the lookup. -/
theorem lookupV_of_mem :
    ∀ (m : List (String × Int)), (keysOf m).Nodup →
      ∀ p ∈ m, lookupV m p.1 = some p.2
  | [], _, p, hp => absurd hp (List.not_mem_nil p)
  | q :: rest, hnd, p, hp => by
    have hndc : q.1 ∉ keysOf rest ∧ (keysOf rest).Nodup := by
      rw [show keysOf (q :: rest) = q.1 :: keysOf rest from rfl] at hnd
      exact List.nodup_cons.mp hnd
    rcases List.mem_cons.mp hp with rfl | hmem
    · simp [lookupV, List.find?]
    · have hq : q.1 ≠ p.1 := by
        intro hEq
        exact hndc.1 (hEq ▸ List.mem_map_of_mem Prod.fst hmem)
      have hb : (q.1 == p.1) = false := beq_eq_false_iff_ne.mpr hq
      simp only [lookupV, List.find?, hb]
      exact lookupV_of_mem rest hndc.2 p hmem

/-- Every entry of the integer category map carries its category's sum. -/
theorem intBuild_val (l : List Expense) (p : String × Int) (hp : p ∈ intBuild l) :
    p.2 = catSum l p.1 := by
  have hnd : (keysOf (intBuild l)).Nodup := nodup_keys_foldl l [] (by simp [keysOf])
  have hl := lookupV_of_mem (intBuild l) hnd p hp
  have hv : valAt (intBuild l) p.1 = catSum l p.1 := by
    have := valAt_foldl l [] p.1
    simpa [valAt, lookupV, List.find?] using this
  rw [valAt, hl] at hv
  simpa using hv

/-- The values of the `forEach` fold sum to the starting values plus the
grand total. -/
theorem sum_vals_foldl :
    ∀ (l : List Expense) (m : List (String × Int)),
      ((l.foldl (fun m' e => intBump m' e.category (intAmount e)) m).map Prod.snd).sum =
        (m.map Prod.snd).sum + totalInt l
  | [], m => by simp [totalInt]
  | e :: rest, m => by
    rw [List.foldl_cons, sum_vals_foldl rest _, sum_intBump, totalInt_cons]
    omega

/-- The per-category sums add up to the grand total. -/
theorem sum_vals_intBuild (l : List Expense) :
    ((intBuild l).map Prod.snd).sum = totalInt l := by
  simpa using sum_vals_foldl l []

/-- The breakdown comparator is transitive. -/
theorem leStat_trans (a b c : CatStat) (h1 : leStat a b = true)
    (h2 : leStat b c = true) : leStat a c = true := by
  simp only [leStat, decide_eq_true_eq] at h1 h2 ⊢
  omega

/-- The breakdown comparator is total. -/
theorem leStat_total (a b : CatStat) : (leStat a b || leStat b a) = true := by
  simp only [leStat, Bool.or_eq_true, decide_eq_true_eq]
  omega

/-- On `NaN`-free data, the unsorted breakdown is the image of the integer
category map. -/
theorem statsUnsorted_eq (l : List Expense)
    (h1 : ∀ e ∈ l, e.amount = some (intAmount e)) :
    statsUnsorted l = (intBuild l).map (fun q =>
      { category := q.1, amount := some q.2,
        percentage := statPercentage (grandTotal l) (some q.2) : CatStat }) := by
  rw [statsUnsorted, buildCategoryMap_eq l h1, mapSome, List.map_map]
  rfl

/-- Adding a constant inside a mapped sum. -/
theorem sum_map_add_const {α : Type} (l : List α) (f : α → ℚ) (c : ℚ) :
    (l.map (fun x => f x + c)).sum = (l.map f).sum + l.length * c := by
  induction l with
  | nil => simp
  | cons x xs ih =>
    simp [ih]
    ring

/-- Multiplying by a constant inside a mapped sum. -/
theorem sum_map_mul_const {α : Type} (l : List α) (f : α → ℚ) (c : ℚ) :
    (l.map (fun x => f x * c)).sum = (l.map f).sum * c := by
  induction l with
  | nil => simp
  | cons x xs ih =>
    simp [ih]
    ring

/-- An integer-valued mapped sum casts to the rational mapped sum. -/
theorem sum_map_intCast {α : Type} (l : List α) (f : α → ℤ) :
    (l.map (fun x => ((f x : ℤ) : ℚ))).sum = (((l.map f).sum : ℤ) : ℚ) := by
  induction l with
  | nil => simp
  | cons x xs ih => simp [ih]

/-- `Math.round` overshoots by at most a half. -/
theorem jsRound_le (q : ℚ) : (jsRound q : ℚ) ≤ q + 1 / 2 :=
  Int.floor_le (q + 1 / 2)

/-- `Math.round` undershoots by at most a half. -/
theorem le_jsRound (q : ℚ) : q - 1 / 2 ≤ (jsRound q : ℚ) := by
  have h := Int.sub_one_lt_floor (q + 1 / 2)
  unfold jsRound
  linarith

/-- C8: for a list whose amounts are actual nonnegative integers,
`calculateCategoryStats` returns one entry per distinct category present,
whose amount is that category's sum and whose percentage is the share of the
grand total rounded to the nearest integer percent (`0` when the grand total
is zero), sorted by amount descending; when the grand total is zero all
percentages are `0`, and when it is nonzero the percentages sum to `100` up
to rounding error (at most one per entry). -/
theorem calculateCategoryStats_spec (l : List Expense)
    (h1 : ∀ e ∈ l, e.amount = some (intAmount e))
    (h2 : ∀ e ∈ l, 0 ≤ intAmount e) :
    ((calculateCategoryStats l).map (fun s => s.category)).Nodup ∧
      (∀ c, c ∈ (calculateCategoryStats l).map (fun s => s.category) ↔
        c ∈ l.map (fun e => e.category)) ∧
      (∀ s ∈ calculateCategoryStats l, s.amount = some (catSum l s.category)) ∧
      (∀ s ∈ calculateCategoryStats l, s.percentage =
        some (if 0 < totalInt l then
          jsRound ((catSum l s.category : ℚ) / (totalInt l : ℚ) * 100) else 0)) ∧
      List.Pairwise (fun a b => b.amount.getD 0 ≤ a.amount.getD 0)
        (calculateCategoryStats l) ∧
      (totalInt l = 0 → ∀ s ∈ calculateCategoryStats l, s.percentage = some 0) ∧
      (totalInt l ≠ 0 →
        (100 : ℤ) - (calculateCategoryStats l).length ≤
          ((calculateCategoryStats l).map (fun s => s.percentage.getD 0)).sum ∧
        ((calculateCategoryStats l).map (fun s => s.percentage.getD 0)).sum ≤
          (100 : ℤ) + (calculateCategoryStats l).length) := by
  have htot := grandTotal_eq l h1
  have hsu := statsUnsorted_eq l h1
  have hperm : (calculateCategoryStats l).Perm (statsUnsorted l) :=
    List.mergeSort_perm (statsUnsorted l) leStat
  have hchar : ∀ s ∈ calculateCategoryStats l, ∃ q ∈ intBuild l,
      s = { category := q.1, amount := some q.2,
            percentage := statPercentage (grandTotal l) (some q.2) : CatStat } := by
    intro s hs
    have hmem := hperm.mem_iff.mp hs
    rw [hsu] at hmem
    obtain ⟨q, hq, heq⟩ := List.mem_map.mp hmem
    exact ⟨q, hq, heq.symm⟩
  have h3 : ∀ s ∈ calculateCategoryStats l, s.amount = some (catSum l s.category) := by
    intro s hs
    obtain ⟨q, hq, rfl⟩ := hchar s hs
    show some q.2 = some (catSum l q.1)
    rw [intBuild_val l q hq]
  have h4 : ∀ s ∈ calculateCategoryStats l, s.percentage =
      some (if 0 < totalInt l then
        jsRound ((catSum l s.category : ℚ) / (totalInt l : ℚ) * 100) else 0) := by
    intro s hs
    obtain ⟨q, hq, rfl⟩ := hchar s hs
    show statPercentage (grandTotal l) (some q.2) =
      some (if 0 < totalInt l then
        jsRound ((catSum l q.1 : ℚ) / (totalInt l : ℚ) * 100) else 0)
    rw [htot]
    show (if 0 < totalInt l then some (jsRound ((q.2 : ℚ) / (totalInt l : ℚ) * 100))
        else some 0) = _
    rw [show q.2 = catSum l q.1 from intBuild_val l q hq]
    by_cases hT : 0 < totalInt l <;> simp [hT]
  have hkeysnd : (keysOf (intBuild l)).Nodup := nodup_keys_foldl l [] (by simp [keysOf])
  have hcatkeys : (statsUnsorted l).map (fun s => s.category) = keysOf (intBuild l) := by
    rw [hsu, List.map_map]
    rfl
  have hmapperm : ((calculateCategoryStats l).map (fun s => s.category)).Perm
      ((statsUnsorted l).map (fun s => s.category)) := hperm.map _
  have hc1 : ((calculateCategoryStats l).map (fun s => s.category)).Nodup := by
    rw [hmapperm.nodup_iff, hcatkeys]
    exact hkeysnd
  have hc2 : ∀ c, c ∈ (calculateCategoryStats l).map (fun s => s.category) ↔
      c ∈ l.map (fun e => e.category) := by
    intro c
    rw [hmapperm.mem_iff, hcatkeys]
    simp only [intBuild]
    rw [mem_keys_foldl l [] c]
    simp [keysOf]
  have hsorted : List.Pairwise (fun a b => leStat a b = true)
      (calculateCategoryStats l) :=
    List.sorted_mergeSort (fun a b c => leStat_trans a b c)
      (fun a b => leStat_total a b) (statsUnsorted l)
  have hc5 : List.Pairwise (fun a b => b.amount.getD 0 ≤ a.amount.getD 0)
      (calculateCategoryStats l) :=
    hsorted.imp (fun hab => by simpa [leStat] using hab)
  have hc6 : totalInt l = 0 → ∀ s ∈ calculateCategoryStats l,
      s.percentage = some 0 := by
    intro hT0 s hs
    rw [h4 s hs, hT0]
    simp
  have hc7 : totalInt l ≠ 0 →
      (100 : ℤ) - (calculateCategoryStats l).length ≤
        ((calculateCategoryStats l).map (fun s => s.percentage.getD 0)).sum ∧
      ((calculateCategoryStats l).map (fun s => s.percentage.getD 0)).sum ≤
        (100 : ℤ) + (calculateCategoryStats l).length := by
    intro hTne
    have hTnn : 0 ≤ totalInt l := by
      unfold totalInt
      apply List.sum_nonneg
      intro x hx
      obtain ⟨e, he, rfl⟩ := List.mem_map.mp hx
      exact h2 e he
    have hT : 0 < totalInt l := lt_of_le_of_ne hTnn (Ne.symm hTne)
    have hTQ : ((totalInt l : ℤ) : ℚ) ≠ 0 := by exact_mod_cast hTne
    have hamt : ((calculateCategoryStats l).map (fun s => s.amount.getD 0)).sum =
        totalInt l := by
      rw [(hperm.map (fun s => s.amount.getD 0)).sum_eq, hsu, List.map_map]
      exact sum_vals_intBuild l
    have hpt : ∀ s ∈ calculateCategoryStats l, s.percentage.getD 0 =
        jsRound (((s.amount.getD 0 : ℤ) : ℚ) / ((totalInt l : ℤ) : ℚ) * 100) := by
      intro s hs
      rw [h4 s hs, h3 s hs]
      simp [hT]
    have hmid : ((calculateCategoryStats l).map
        (fun s => ((s.amount.getD 0 : ℤ) : ℚ) / ((totalInt l : ℤ) : ℚ) * 100)).sum
          = 100 := by
      rw [show (fun (s : CatStat) =>
            ((s.amount.getD 0 : ℤ) : ℚ) / ((totalInt l : ℤ) : ℚ) * 100) =
          (fun (s : CatStat) => ((s.amount.getD 0 : ℤ) : ℚ) *
            (100 / ((totalInt l : ℤ) : ℚ))) from by funext s; ring]
      rw [sum_map_mul_const (calculateCategoryStats l)
        (fun s => ((s.amount.getD 0 : ℤ) : ℚ)) (100 / ((totalInt l : ℤ) : ℚ))]
      rw [sum_map_intCast (calculateCategoryStats l) (fun s => s.amount.getD 0), hamt]
      field_simp
    have hPQ : ((((calculateCategoryStats l).map
        (fun s => s.percentage.getD 0)).sum : ℤ) : ℚ) =
        ((calculateCategoryStats l).map
          (fun s => ((s.percentage.getD 0 : ℤ) : ℚ))).sum := by
      rw [← sum_map_intCast]
    have hub : ((((calculateCategoryStats l).map
        (fun s => s.percentage.getD 0)).sum : ℤ) : ℚ) ≤
        100 + ((calculateCategoryStats l).length : ℚ) * (1 / 2) := by
      rw [hPQ]
      calc ((calculateCategoryStats l).map
            (fun s => ((s.percentage.getD 0 : ℤ) : ℚ))).sum
          ≤ ((calculateCategoryStats l).map
              (fun s => ((s.amount.getD 0 : ℤ) : ℚ) / ((totalInt l : ℤ) : ℚ) * 100
                + 1 / 2)).sum := by
            apply List.sum_le_sum
            intro s hs
            rw [hpt s hs]
            exact jsRound_le _
        _ = 100 + ((calculateCategoryStats l).length : ℚ) * (1 / 2) := by
            rw [sum_map_add_const (calculateCategoryStats l)
              (fun s => ((s.amount.getD 0 : ℤ) : ℚ) / ((totalInt l : ℤ) : ℚ) * 100)
              (1 / 2), hmid]
    have hlb : 100 - ((calculateCategoryStats l).length : ℚ) * (1 / 2) ≤
        ((((calculateCategoryStats l).map
          (fun s => s.percentage.getD 0)).sum : ℤ) : ℚ) := by
      rw [hPQ]
      calc (100 : ℚ) - ((calculateCategoryStats l).length : ℚ) * (1 / 2)
          = ((calculateCategoryStats l).map
              (fun s => ((s.amount.getD 0 : ℤ) : ℚ) / ((totalInt l : ℤ) : ℚ) * 100
                + (-(1 / 2)))).sum := by
            rw [sum_map_add_const (calculateCategoryStats l)
              (fun s => ((s.amount.getD 0 : ℤ) : ℚ) / ((totalInt l : ℤ) : ℚ) * 100)
              (-(1 / 2)), hmid]
            ring
        _ ≤ ((calculateCategoryStats l).map
            (fun s => ((s.percentage.getD 0 : ℤ) : ℚ))).sum := by
            apply List.sum_le_sum
            intro s hs
            rw [hpt s hs]
            have := le_jsRound (((s.amount.getD 0 : ℤ) : ℚ) /
              ((totalInt l : ℤ) : ℚ) * 100)
            linarith
    have hk0 : (0 : ℚ) ≤ ((calculateCategoryStats l).length : ℚ) := by positivity
    obtain ⟨S, hS⟩ : ∃ S : ℤ,
        ((calculateCategoryStats l).map (fun s => s.percentage.getD 0)).sum = S :=
      ⟨_, rfl⟩
    obtain ⟨k, hk⟩ : ∃ k : ℕ, (calculateCategoryStats l).length = k := ⟨_, rfl⟩
    rw [hk] at hk0
    rw [hS, hk] at hub hlb ⊢
    constructor
    · have hcast : (((100 : ℤ) - (k : ℤ)) : ℚ) ≤ ((S : ℤ) : ℚ) := by
        push_cast
        linarith
      exact_mod_cast hcast
    · have hcast : ((S : ℤ) : ℚ) ≤ (((100 : ℤ) + (k : ℤ)) : ℚ) := by
        push_cast
        linarith
      exact_mod_cast hcast
  exact ⟨hc1, hc2, h3, h4, hc5, hc6, hc7⟩

/-- The spec's worked example: two records, `食費 1000` and `交通費 500`
(C8 witness). -/
def lC8 : List Expense :=
  [{ id := "s1", date := "2024-01-05", category := "食費", amount := some 1000,
     memo := some "", createdAt := 0, updatedAt := none },
   { id := "s2", date := "2024-01-10", category := "交通費", amount := some 500,
     memo := some "", createdAt := 0, updatedAt := none }]

/-- C8 witness. -/
theorem calculateCategoryStats_spec_witness :
    (100 : ℤ) - (calculateCategoryStats lC8).length ≤
        ((calculateCategoryStats lC8).map (fun s => s.percentage.getD 0)).sum ∧
      ((calculateCategoryStats lC8).map (fun s => s.percentage.getD 0)).sum ≤
        (100 : ℤ) + (calculateCategoryStats lC8).length :=
  (calculateCategoryStats_spec lC8 (by decide) (by decide)).2.2.2.2.2.2 (by decide)

end ExpenseTracker
